import Mathlib

/-!
# Blocked services of the DNS filter (`dnsfilter/blocked_services.go`)

A shallow embedding of the blocked-service catalog and of the per-request
resolution of service names, followed by the properties proved about them.

* The package variable `serviceRules` (a Go `map[string][]*rules.NetworkRule`)
  is an optional association list: `none` is the nil map the variable holds
  before `initBlockedServices` runs.
* The rule type and `rules.NewNetworkRule` belong to an external library and
  are parameters (`Rule`, `NewNetworkRule`).
* Everything the functions do besides computing values (locking `confLock`,
  reading the map, logging, marking the configuration modified) is appended
  to an event trace, in program order.
-/

namespace dnsfilter

/-! ## Go maps -/

/-- A non-nil Go `map[string]V`, as the list of its key/value pairs. The
source never ranges over the map, so the order of the pairs is not observable:
only `get`, `set` and the set of keys are. -/
abbrev GoMap (V : Type) := List (String × V)

namespace GoMap

/-- The comma-ok read `v, ok := m[k]`: `some v` when `ok`, `none` otherwise. -/
def get {V : Type} : GoMap V → String → Option V
  | [], _ => none
  | (k', v) :: rest, k => if k' = k then some v else get rest k

/-- The assignment `m[k] = v`: replaces the value of an existing key and adds
the key otherwise. -/
def set {V : Type} : GoMap V → String → V → GoMap V
  | [], k, v => [(k, v)]
  | (k', v') :: rest, k, v =>
      if k' = k then (k', v) :: rest else (k', v') :: set rest k v

/-- The keys of the map. -/
def keys {V : Type} (m : GoMap V) : List String := m.map Prod.fst

end GoMap

/-! ## Data model -/

/-- The Go `type svc struct { name string; rules []string }`. -/
structure svc where
  name : String
  rules : List String
  deriving DecidableEq, Repr

/-- The static table `serviceRulesArray`. -/
def serviceRulesArray : List svc := [
  ⟨"whatsapp", ["||whatsapp.net^", "||whatsapp.com^"]⟩,
  ⟨"facebook", ["||facebook.com^", "||facebook.net^", "||fbcdn.net^", "||fb.me^",
      "||fb.com^", "||fbsbx.com^", "||messenger.com^"]⟩,
  ⟨"twitter", ["||twitter.com^", "||t.co^", "||twimg.com^"]⟩,
  ⟨"youtube", ["||youtube.com^", "||ytimg.com^", "||youtu.be^", "||googlevideo.com^",
      "||youtubei.googleapis.com^"]⟩,
  ⟨"twitch", ["||twitch.tv^", "||ttvnw.net^"]⟩,
  ⟨"netflix", ["||nflxext.com^", "||netflix.com^"]⟩,
  ⟨"instagram", ["||instagram.com^", "||cdninstagram.com^"]⟩,
  ⟨"snapchat", ["||snapchat.com^", "||sc-cdn.net^",
      "||impala-media-production.s3.amazonaws.com^"]⟩,
  ⟨"discord", ["||discord.gg^", "||discordapp.net^", "||discordapp.com^"]⟩,
  ⟨"ok", ["||ok.ru^"]⟩,
  ⟨"skype", ["||skype.com^"]⟩,
  ⟨"vk", ["||vk.com^"]⟩,
  ⟨"origin", ["||origin.com^", "||signin.ea.com^", "||accounts.ea.com^"]⟩,
  ⟨"steam", ["||steam.com^"]⟩,
  ⟨"epic_games", ["||epicgames.com^"]⟩,
  ⟨"reddit", ["||reddit.com^", "||redditstatic.com^", "||redditmedia.com^", "||redd.it^"]⟩,
  ⟨"mail_ru", ["||mail.ru^"]⟩,
  ⟨"cloudflare", ["||cloudflare.com^", "||cloudflare-dns.com^", "||cloudflare.net^",
      "||cloudflareinsights.com^", "||cloudflarestream.com^", "||cloudflareresolve.com^",
      "||cloudflareclient.com^", "||cloudflarebolt.com^", "||cloudflarestatus.com^",
      "||cloudflare.cn^", "||one.one^", "||warp.plus^"]⟩,
  ⟨"amazon", ["||amazon.com^", "||media-amazon.com^", "||images-amazon.com^", "||a2z.com^",
      "||amazon.ae^", "||amazon.ca^", "||amazon.cn^", "||amazon.de^", "||amazon.es^",
      "||amazon.fr^", "||amazon.in^", "||amazon.it^", "||amazon.nl^", "||amazon.com.au^",
      "||amazon.com.br^", "||amazon.co.jp^", "||amazon.com.mx^", "||amazon.co.uk^"]⟩,
  ⟨"ebay", ["||ebay.com^", "||ebayimg.com^", "||ebaystatic.com^", "||ebaycdn.net^",
      "||ebayinc.com^", "||ebay.at^", "||ebay.be^", "||ebay.ca^", "||ebay.ch^", "||ebay.cn^",
      "||ebay.de^", "||ebay.es^", "||ebay.fr^", "||ebay.ie^", "||ebay.in^", "||ebay.it^",
      "||ebay.ph^", "||ebay.pl^", "||ebay.nl^", "||ebay.com.au^", "||ebay.com.cn^",
      "||ebay.com.hk^", "||ebay.com.my^", "||ebay.com.sg^", "||ebay.co.uk^"]⟩,
  ⟨"tiktok", ["||tiktok.com^", "||tiktokcdn.com^", "||snssdk.com^", "||amemv.com^",
      "||toutiao.com^", "||ixigua.com^", "||pstatp.com^", "||ixiguavideo.com^",
      "||toutiaocloud.com^", "||toutiaocloud.net^", "||bdurl.com^", "||bytecdn.cn^",
      "||byteimg.com^", "||ixigua.com^", "||muscdn.com^", "||bytedance.map.fastly.net^"]⟩]

/-- Modelled from the spec: the struct `ServiceEntry` is declared outside this
file; the source uses its fields `Name` and `Rules`, an entry `(name, rules)`
of the resolved rules. -/
structure ServiceEntry (Rule : Type) where
  Name : String
  Rules : List Rule
  deriving DecidableEq, Repr

/-- Modelled from the spec: the struct `RequestFilteringSettings` is declared
outside this file; it is the per-query settings object, of which the source
uses the field `ServicesRules`. The fields the source never touches are kept
together in `other`. -/
structure RequestFilteringSettings (Rule Other : Type) where
  other : Other
  ServicesRules : List (ServiceEntry Rule)
  deriving DecidableEq, Repr

/-- Modelled from the spec: the struct `Config` is declared outside this file;
the source uses its field `BlockedServices`, the configured global list of
service names. -/
structure Config where
  BlockedServices : List String
  deriving DecidableEq, Repr

/-- Modelled from the spec: the struct `Dnsfilter` is declared outside this
file; the source uses its field `Config` (its lock `confLock` shows in the
event trace). -/
structure Dnsfilter where
  Config : Config
  deriving DecidableEq, Repr

/-- What a function does besides computing values, in program order. -/
inductive Event where
  /-- The call `d.confLock.RLock()`. -/
  | RLock
  /-- The call `d.confLock.RUnlock()`. -/
  | RUnlock
  /-- The call `d.confLock.Lock()`. -/
  | Lock
  /-- The call `d.confLock.Unlock()`. -/
  | Unlock
  /-- The read `serviceRules[name]`. -/
  | mapRead (name : String)
  /-- The call `log.Error` with the formatted message. -/
  | logError (msg : String)
  /-- The call `log.Debug` with the formatted message. -/
  | logDebug (msg : String)
  /-- The call `d.ConfigModified()`. -/
  | ConfigModified
  deriving DecidableEq, Repr

/-- The state the functions of the file work on: the package variable
`serviceRules` (`none` is the nil map), the receiver `d`, and the trace of
events so far. -/
structure World (Rule : Type) where
  serviceRules : Option (GoMap (List Rule))
  d : Dnsfilter
  trace : List Event

/-- The comma-ok read `rules, ok := serviceRules[name]` of the package
variable; a read of the nil map finds nothing. -/
def World.mapIndex {Rule : Type} (w : World Rule) (name : String) : Option (List Rule) :=
  match w.serviceRules with
  | none => none
  | some m => m.get name

/-- The assignment `d.Config.BlockedServices = list`. -/
def World.setBlockedServices {Rule : Type} (w : World Rule) (list : List String) : World Rule :=
  { w with d := { w.d with Config := { w.d.Config with BlockedServices := list } } }

/-! ## Building the catalog -/

/-- One turn of the inner loop of `initBlockedServices`: compile `text`; on an
error log it and go on, otherwise append the rule to `netRules`. The state is
`(netRules, trace)`. -/
def compileStep {Rule : Type} (NewNetworkRule : String → Except String Rule)
    (acc : List Rule × List Event) (text : String) : List Rule × List Event :=
  match NewNetworkRule text with
  | .error err =>
      (acc.1, acc.2 ++ [Event.logError ("rules.NewNetworkRule: " ++ err ++ "  rule: " ++ text)])
  | .ok rule => (acc.1 ++ [rule], acc.2)

/-- One turn of the outer loop of `initBlockedServices`: start from an empty
`netRules`, run the inner loop over `s.rules`, then `serviceRules[s.name] =
netRules`. The state is `(serviceRules, trace)`. -/
def initStep {Rule : Type} (NewNetworkRule : String → Except String Rule)
    (acc : GoMap (List Rule) × List Event) (s : svc) : GoMap (List Rule) × List Event :=
  let r := s.rules.foldl (compileStep NewNetworkRule) ([], acc.2)
  (acc.1.set s.name r.1, r.2)

/-- The function `initBlockedServices`, with the table it ranges over as a
parameter (the source ranges over `serviceRulesArray`): `serviceRules` becomes
a fresh map, filled by the loop over the table. -/
def initBlockedServices {Rule : Type} (NewNetworkRule : String → Except String Rule)
    (table : List svc) (w : World Rule) : World Rule :=
  let r := table.foldl (initStep NewNetworkRule) ([], w.trace)
  { w with serviceRules := some r.1, trace := r.2 }

/-! ## Lookup and resolution -/

/-- The function `BlockedSvcKnown`: `_, ok := serviceRules[s]; return ok`. -/
def BlockedSvcKnown {Rule : Type} (w : World Rule) (s : String) : Bool :=
  (w.mapIndex s).isSome

/-- One turn of the loop of `ApplyBlockedServices`: read `serviceRules[name]`;
when the name is not a key log the error and go on, otherwise append the entry
to `setts.ServicesRules`. The state is `(setts.ServicesRules, trace)`. -/
def applyStep {Rule : Type} (w : World Rule)
    (acc : List (ServiceEntry Rule) × List Event) (name : String) :
    List (ServiceEntry Rule) × List Event :=
  match w.mapIndex name with
  | none =>
      (acc.1, acc.2 ++ [Event.mapRead name, Event.logError ("unknown service name: " ++ name)])
  | some rules =>
      (acc.1 ++ [{ Name := name, Rules := rules }], acc.2 ++ [Event.mapRead name])

/-- The method `ApplyBlockedServices`: `setts.ServicesRules` is reset, with
`global` the list is read from the configuration under the read lock, whose
release is deferred to the return, and the loop resolves the names. Returns
the state and the settings object after the call. -/
def ApplyBlockedServices {Rule Other : Type} (w : World Rule)
    (setts : RequestFilteringSettings Rule Other) (list : List String) (global : Bool) :
    World Rule × RequestFilteringSettings Rule Other :=
  let setts := { setts with ServicesRules := [] }
  let tr := if global then w.trace ++ [Event.RLock] else w.trace
  let list := if global then w.d.Config.BlockedServices else list
  let r := list.foldl (applyStep w) (setts.ServicesRules, tr)
  let tr := if global then r.2 ++ [Event.RUnlock] else r.2
  ({ w with trace := tr }, { setts with ServicesRules := r.1 })

/-! ## The HTTP handlers -/

/-- Modelled from the spec: the response a handler leaves in its
`http.ResponseWriter`, a type of the standard library: the headers set, the
status code and the body written. -/
structure Response where
  header : List (String × String)
  status : Nat
  body : String
  deriving DecidableEq, Repr

/-- The response writer a handler receives: nothing set, status 200. -/
def Response.fresh : Response := { header := [], status := 200, body := "" }

/-- Modelled from the spec: the helper `httpError(r, w, code, format, args)`
is declared outside this file; it answers the request with the status `code`
and the formatted message. -/
def httpError (resp : Response) (code : Nat) (msg : String) : Response :=
  { resp with status := code, body := resp.body ++ msg }

/-- The handler `handleBlockedServicesList`: read the configured list under
the read lock, set the content type and write the list as JSON
(`jsonEncode` stands for `json.NewEncoder(w).Encode`). -/
def handleBlockedServicesList {Rule : Type} (jsonEncode : List String → Except String String)
    (w : World Rule) (resp : Response) : World Rule × Response :=
  let list := w.d.Config.BlockedServices
  let w := { w with trace := w.trace ++ [Event.RLock, Event.RUnlock] }
  let resp := { resp with header := resp.header ++ [("Content-Type", "application/json")] }
  match jsonEncode list with
  | .error err => (w, httpError resp 500 ("json.Encode: " ++ err))
  | .ok text => (w, { resp with body := resp.body ++ text })

/-- The handler `handleBlockedServicesSet`: decode the body (`jsonDecode`
stands for `json.NewDecoder(r.Body).Decode`); on an error answer 400 and
return, otherwise replace the configured list under the write lock, log, and
mark the configuration modified. -/
def handleBlockedServicesSet {Rule : Type} (jsonDecode : String → Except String (List String))
    (w : World Rule) (body : String) (resp : Response) : World Rule × Response :=
  match jsonDecode body with
  | .error err => (w, httpError resp 400 ("json.Decode: " ++ err))
  | .ok list =>
      ({ w.setBlockedServices list with
          trace := w.trace ++ [Event.Lock, Event.Unlock,
            Event.logDebug ("Updated blocked services list: " ++ toString list.length),
            Event.ConfigModified] }, resp)

/-! ## Reference descriptions used in the statements -/

/-- The results of the patterns that compile, in pattern order. -/
def compiledOf {Rule : Type} (NewNetworkRule : String → Except String Rule)
    (patterns : List String) : List Rule :=
  patterns.filterMap (fun text => (NewNetworkRule text).toOption)

/-- The names of the entries of a settings object, in order. -/
def entryNames {Rule : Type} (entries : List (ServiceEntry Rule)) : List String :=
  entries.map ServiceEntry.Name

/-- The state right after `initBlockedServices` ran on the static table. -/
def afterInit {Rule : Type} (NewNetworkRule : String → Except String Rule)
    (w : World Rule) : World Rule :=
  initBlockedServices NewNetworkRule serviceRulesArray w

/-- The entry the loop of `ApplyBlockedServices` appends for `name`, if any. -/
def resolveName {Rule : Type} (w : World Rule) (name : String) : Option (ServiceEntry Rule) :=
  (w.mapIndex name).map (fun rules => { Name := name, Rules := rules })

/-- The list `ApplyBlockedServices` resolves: the configured one with
`global`, the argument otherwise. -/
def effectiveList {Rule : Type} (w : World Rule) (list : List String) (global : Bool) :
    List String :=
  if global then w.d.Config.BlockedServices else list

/-- The keys of the catalog; the nil map has none. -/
def World.catalogKeys {Rule : Type} (w : World Rule) : List String :=
  match w.serviceRules with
  | none => []
  | some m => m.keys

/-- The events a call appended: what the trace after the call holds beyond
the trace before it. -/
def callEvents (before after : List Event) : List Event :=
  after.drop before.length

/-- The messages of the `log.Error` calls of a trace, in order. -/
def diagnostics : List Event → List String
  | [] => []
  | Event.logError msg :: tr => msg :: diagnostics tr
  | _ :: tr => diagnostics tr

/-- The events of a trace, lock calls apart, that happen while the read lock
of `confLock` is held; `held` tells whether it is held when the trace starts. -/
def underRLock : Bool → List Event → List Event
  | _, [] => []
  | _, Event.RLock :: tr => underRLock true tr
  | _, Event.RUnlock :: tr => underRLock false tr
  | held, e :: tr => if held then e :: underRLock held tr else underRLock held tr

/-- The events of the loop of `ApplyBlockedServices` over `list`: for each
name its map read, followed by the diagnostic when the name is unknown. -/
def loopEvents {Rule : Type} (w : World Rule) : List String → List Event
  | [] => []
  | name :: rest =>
      if BlockedSvcKnown w name then Event.mapRead name :: loopEvents w rest
      else Event.mapRead name :: Event.logError ("unknown service name: " ++ name)
        :: loopEvents w rest

/-! ## Concrete inputs -/

/-- A rule compiler for the examples: the rule of a pattern is its text, and
the pattern `||fb.me^` is rejected. -/
def sampleCompile : String → Except String String :=
  fun text => if text = "||fb.me^" then .error "bad pattern" else .ok text

/-- A rule compiler that rejects every pattern. -/
def rejectAll : String → Except String String :=
  fun _ => .error "bad pattern"

/-- The state at program start: `serviceRules` is nil, the configured global
list is youtube. -/
def startWorld : World String :=
  { serviceRules := none, d := { Config := { BlockedServices := ["youtube"] } }, trace := [] }

/-- The state after `initBlockedServices` ran with `sampleCompile`. -/
def sampleWorld : World String := afterInit sampleCompile startWorld

/-- A settings object that holds a stale entry. -/
def sampleSetts : RequestFilteringSettings String Nat :=
  { other := 7, ServicesRules := [{ Name := "stale", Rules := ["||stale.example^"] }] }

/-- A decoder for the examples: it accepts one body, a list with an unknown
and a repeated name, and rejects every other body. -/
def sampleDecode : String → Except String (List String) :=
  fun body =>
    if body = "[\"bogus\",\"facebook\",\"facebook\"]" then .ok ["bogus", "facebook", "facebook"]
    else .error "invalid character"

/-- An encoder for the examples: the names, quoted, between brackets. -/
def sampleEncode : List String → Except String String :=
  fun list => .ok ("[" ++ String.intercalate "," (list.map (fun n => "\"" ++ n ++ "\"")) ++ "]")

/-! ## Lemmas on Go maps -/

namespace GoMap

theorem get_set_self {V : Type} (m : GoMap V) (k : String) (v : V) :
    (m.set k v).get k = some v := by
  induction m with
  | nil => simp [set, get]
  | cons p rest ih =>
      obtain ⟨k', v'⟩ := p
      by_cases h : k' = k
      · simp [set, get, h]
      · simp [set, get, h, ih]

theorem get_set_ne {V : Type} (m : GoMap V) (k j : String) (v : V) (h : k ≠ j) :
    (m.set k v).get j = m.get j := by
  induction m with
  | nil => simp [set, get, h]
  | cons p rest ih =>
      obtain ⟨k', v'⟩ := p
      by_cases hk : k' = k
      · subst hk
        simp [set, get, h]
      · by_cases hj : k' = j
        · subst hj
          simp [set, get, hk]
        · simp [set, get, hk, hj, ih]

theorem get_isSome_iff {V : Type} (m : GoMap V) (k : String) :
    (m.get k).isSome = true ↔ k ∈ m.keys := by
  induction m with
  | nil => simp [get, keys]
  | cons p rest ih =>
      obtain ⟨k', v'⟩ := p
      by_cases h : k' = k
      · simp [get, keys, h]
      · have hne : ¬ k = k' := fun e => h e.symm
        simp only [get, h, if_false, ih, keys, List.map_cons, List.mem_cons, hne, false_or]

theorem keys_set_of_mem {V : Type} (m : GoMap V) (k : String) (v : V) (h : k ∈ m.keys) :
    (m.set k v).keys = m.keys := by
  induction m with
  | nil => simp [keys] at h
  | cons p rest ih =>
      obtain ⟨k', v'⟩ := p
      by_cases hk : k' = k
      · simp [set, keys, hk]
      · have hne : ¬ k = k' := fun e => hk e.symm
        have hr : k ∈ keys rest := by
          simpa [keys, hne] using h
        have := ih hr
        simp only [keys] at this
        simp [set, keys, hk, this]

theorem keys_set_of_not_mem {V : Type} (m : GoMap V) (k : String) (v : V) (h : k ∉ m.keys) :
    (m.set k v).keys = m.keys ++ [k] := by
  induction m with
  | nil => simp [set, keys]
  | cons p rest ih =>
      obtain ⟨k', v'⟩ := p
      have hk : ¬ k' = k := by
        intro e
        exact h (by simp [keys, e])
      have hr : k ∉ keys rest := by
        intro e
        exact h (by simp only [keys] at e; simp [keys, e])
      have := ih hr
      simp only [keys] at this
      simp [set, keys, hk, this]

end GoMap

/-! ## Lemmas on building the catalog -/

theorem compile_fold_fst {Rule : Type} (N : String → Except String Rule)
    (patterns : List String) (acc : List Rule × List Event) :
    (patterns.foldl (compileStep N) acc).1 = acc.1 ++ compiledOf N patterns := by
  induction patterns generalizing acc with
  | nil => simp [compiledOf]
  | cons text rest ih =>
      rw [List.foldl_cons, ih]
      cases h : N text with
      | error err => simp [compileStep, compiledOf, h, Except.toOption]
      | ok rule => simp [compileStep, compiledOf, h, Except.toOption]

theorem initStep_fst {Rule : Type} (N : String → Except String Rule)
    (acc : GoMap (List Rule) × List Event) (s : svc) :
    (initStep N acc s).1 = acc.1.set s.name (compiledOf N s.rules) := by
  simp [initStep, compile_fold_fst]

theorem init_fold_get_of_not_mem {Rule : Type} (N : String → Except String Rule)
    (table : List svc) (acc : GoMap (List Rule) × List Event) (k : String)
    (h : k ∉ table.map svc.name) :
    (table.foldl (initStep N) acc).1.get k = acc.1.get k := by
  induction table generalizing acc with
  | nil => rfl
  | cons s rest ih =>
      have hs : s.name ≠ k := by
        intro e
        exact h (by simp [e])
      have hr : k ∉ rest.map svc.name := by
        intro e
        exact h (by simp only [List.map_cons, List.mem_cons]; exact Or.inr e)
      rw [List.foldl_cons, ih _ hr, initStep_fst, GoMap.get_set_ne _ _ _ _ hs]

theorem init_fold_get_of_mem {Rule : Type} (N : String → Except String Rule)
    (table : List svc) (acc : GoMap (List Rule) × List Event) (s : svc)
    (hnd : (table.map svc.name).Nodup) (hs : s ∈ table) :
    (table.foldl (initStep N) acc).1.get s.name = some (compiledOf N s.rules) := by
  induction table generalizing acc with
  | nil => simp at hs
  | cons s' rest ih =>
      rw [List.map_cons, List.nodup_cons] at hnd
      rw [List.foldl_cons]
      rcases List.mem_cons.mp hs with e | hin
      · subst e
        rw [init_fold_get_of_not_mem N rest _ _ hnd.1, initStep_fst, GoMap.get_set_self]
      · exact ih _ hnd.2 hin

theorem init_fold_known {Rule : Type} (N : String → Except String Rule)
    (table : List svc) (acc : GoMap (List Rule) × List Event) (k : String) :
    ((table.foldl (initStep N) acc).1.get k).isSome = true ↔
      (acc.1.get k).isSome = true ∨ k ∈ table.map svc.name := by
  induction table generalizing acc with
  | nil => simp
  | cons s rest ih =>
      rw [List.foldl_cons, ih, initStep_fst]
      by_cases e : s.name = k
      · subst e
        simp [GoMap.get_set_self]
      · have hne : ¬ k = s.name := fun h => e h.symm
        simp [GoMap.get_set_ne _ _ _ _ e, hne]

theorem init_fold_keys {Rule : Type} (N : String → Except String Rule)
    (table : List svc) (acc : GoMap (List Rule) × List Event)
    (hnd : (table.map svc.name).Nodup)
    (hdisj : ∀ k ∈ table.map svc.name, k ∉ acc.1.keys) :
    (table.foldl (initStep N) acc).1.keys = acc.1.keys ++ table.map svc.name := by
  induction table generalizing acc with
  | nil => simp
  | cons s rest ih =>
      rw [List.map_cons, List.nodup_cons] at hnd
      have hs : s.name ∉ acc.1.keys := hdisj _ (by simp)
      have hk : (initStep N acc s).1.keys = acc.1.keys ++ [s.name] := by
        rw [initStep_fst, GoMap.keys_set_of_not_mem _ _ _ hs]
      rw [List.foldl_cons, ih _ hnd.2, hk]
      · simp
      · intro k hkr hmem
        rw [hk, List.mem_append, List.mem_singleton] at hmem
        rcases hmem with hm | he
        · exact hdisj k (by simp only [List.map_cons, List.mem_cons]; exact Or.inr hkr) hm
        · exact hnd.1 (he ▸ hkr)

theorem serviceRulesArray_names_nodup : (serviceRulesArray.map svc.name).Nodup := by
  decide

theorem init_mapIndex_known {Rule : Type} (N : String → Except String Rule)
    (table : List svc) (w : World Rule) (k : String) :
    ((initBlockedServices N table w).mapIndex k).isSome = true ↔ k ∈ table.map svc.name := by
  simp only [initBlockedServices, World.mapIndex]
  rw [init_fold_known]
  simp [GoMap.get]

theorem init_mapIndex_of_mem {Rule : Type} (N : String → Except String Rule)
    (table : List svc) (w : World Rule) (s : svc)
    (hnd : (table.map svc.name).Nodup) (hs : s ∈ table) :
    (initBlockedServices N table w).mapIndex s.name = some (compiledOf N s.rules) := by
  simp only [initBlockedServices, World.mapIndex]
  exact init_fold_get_of_mem N table _ s hnd hs

/-! ## Lemmas on resolution -/

theorem apply_fold_fst {Rule : Type} (w : World Rule) (list : List String)
    (acc : List (ServiceEntry Rule) × List Event) :
    (list.foldl (applyStep w) acc).1 = acc.1 ++ list.filterMap (resolveName w) := by
  induction list generalizing acc with
  | nil => simp
  | cons name rest ih =>
      rw [List.foldl_cons, ih]
      cases h : w.mapIndex name with
      | none => simp [applyStep, resolveName, h]
      | some rules => simp [applyStep, resolveName, h]

theorem entryNames_filterMap {Rule : Type} (w : World Rule) (list : List String) :
    entryNames (list.filterMap (resolveName w)) = list.filter (BlockedSvcKnown w) := by
  induction list with
  | nil => rfl
  | cons name rest ih =>
      cases h : w.mapIndex name with
      | none =>
          have hk : BlockedSvcKnown w name = false := by simp [BlockedSvcKnown, h]
          have hr : resolveName w name = none := by simp [resolveName, h]
          rw [List.filterMap_cons_none hr, List.filter_cons_of_neg (by simp [hk]), ih]
      | some rules =>
          have hk : BlockedSvcKnown w name = true := by simp [BlockedSvcKnown, h]
          have hr : resolveName w name = some { Name := name, Rules := rules } := by
            simp [resolveName, h]
          rw [List.filterMap_cons_some hr, List.filter_cons_of_pos hk]
          simp only [entryNames, List.map_cons] at ih ⊢
          rw [ih]

theorem mem_filterMap_resolve {Rule : Type} (w : World Rule) (list : List String)
    (e : ServiceEntry Rule) (h : e ∈ list.filterMap (resolveName w)) :
    e.Name ∈ list ∧ w.mapIndex e.Name = some e.Rules := by
  rw [List.mem_filterMap] at h
  obtain ⟨name, hin, hres⟩ := h
  cases hm : w.mapIndex name with
  | none => simp [resolveName, hm] at hres
  | some rules =>
      simp only [resolveName, hm, Option.map_some', Option.some.injEq] at hres
      subst hres
      exact ⟨hin, hm⟩

theorem apply_servicesRules {Rule Other : Type} (w : World Rule)
    (setts : RequestFilteringSettings Rule Other) (list : List String) (global : Bool) :
    (ApplyBlockedServices w setts list global).2.ServicesRules =
      (effectiveList w list global).filterMap (resolveName w) := by
  simp [ApplyBlockedServices, effectiveList, apply_fold_fst]

theorem apply_world {Rule Other : Type} (w : World Rule)
    (setts : RequestFilteringSettings Rule Other) (list : List String) (global : Bool) :
    (ApplyBlockedServices w setts list global).1.serviceRules = w.serviceRules ∧
      (ApplyBlockedServices w setts list global).1.d = w.d := by
  simp [ApplyBlockedServices]

theorem init_mapIndex_of_not_mem {Rule : Type} (N : String → Except String Rule)
    (table : List svc) (w : World Rule) (k : String) (h : k ∉ table.map svc.name) :
    (initBlockedServices N table w).mapIndex k = none := by
  have hk := init_mapIndex_known N table w k
  cases hm : (initBlockedServices N table w).mapIndex k with
  | none => rfl
  | some rules =>
      rw [hm] at hk
      exact absurd (hk.mp rfl) h

/-! ## The catalog and the resolution of an explicit list -/

/-- C1: with `global = false` the names of `setts.ServicesRules` after
`ApplyBlockedServices` are the input list with the names unknown to the
catalog removed, in order and with repetitions, and the `Rules` of every entry
are what the catalog holds under its `Name`; on the catalog built from the
static table the list facebook, bogus, twitter resolves to the two entries
facebook and twitter, in that order, each with the compiled rules of its
service. -/
theorem apply_explicit_keeps_known_in_order {Rule Other : Type}
    (N : String → Except String Rule) (w : World Rule)
    (setts : RequestFilteringSettings Rule Other) (list : List String) :
    entryNames (ApplyBlockedServices w setts list false).2.ServicesRules
        = list.filter (BlockedSvcKnown w) ∧
      (∀ e ∈ (ApplyBlockedServices w setts list false).2.ServicesRules,
        w.mapIndex e.Name = some e.Rules) ∧
      (ApplyBlockedServices (afterInit N w) setts ["facebook", "bogus", "twitter"]
          false).2.ServicesRules =
        [{ Name := "facebook",
           Rules := compiledOf N ["||facebook.com^", "||facebook.net^", "||fbcdn.net^",
             "||fb.me^", "||fb.com^", "||fbsbx.com^", "||messenger.com^"] },
         { Name := "twitter",
           Rules := compiledOf N ["||twitter.com^", "||t.co^", "||twimg.com^"] }] ∧
      entryNames (ApplyBlockedServices (afterInit N w) setts ["facebook", "bogus", "twitter"]
          false).2.ServicesRules = ["facebook", "twitter"] ∧
      (ApplyBlockedServices (afterInit N w) setts ["facebook", "bogus", "twitter"]
          false).2.ServicesRules.length = 2 := by
  have hfb : (afterInit N w).mapIndex "facebook" = some (compiledOf N
      ["||facebook.com^", "||facebook.net^", "||fbcdn.net^",
        "||fb.me^", "||fb.com^", "||fbsbx.com^", "||messenger.com^"]) :=
    init_mapIndex_of_mem N serviceRulesArray w
      ⟨"facebook", ["||facebook.com^", "||facebook.net^", "||fbcdn.net^",
        "||fb.me^", "||fb.com^", "||fbsbx.com^", "||messenger.com^"]⟩
      serviceRulesArray_names_nodup (by decide)
  have htw : (afterInit N w).mapIndex "twitter" = some (compiledOf N
      ["||twitter.com^", "||t.co^", "||twimg.com^"]) :=
    init_mapIndex_of_mem N serviceRulesArray w
      ⟨"twitter", ["||twitter.com^", "||t.co^", "||twimg.com^"]⟩
      serviceRulesArray_names_nodup (by decide)
  have hbg : (afterInit N w).mapIndex "bogus" = none :=
    init_mapIndex_of_not_mem N serviceRulesArray w "bogus" (by decide)
  have hres : (ApplyBlockedServices (afterInit N w) setts ["facebook", "bogus", "twitter"]
      false).2.ServicesRules =
        [{ Name := "facebook",
           Rules := compiledOf N ["||facebook.com^", "||facebook.net^", "||fbcdn.net^",
             "||fb.me^", "||fb.com^", "||fbsbx.com^", "||messenger.com^"] },
         { Name := "twitter",
           Rules := compiledOf N ["||twitter.com^", "||t.co^", "||twimg.com^"] }] := by
    rw [apply_servicesRules]
    simp [effectiveList, resolveName, hfb, htw, hbg]
  refine ⟨?_, ?_, hres, ?_, ?_⟩
  · rw [apply_servicesRules]
    exact entryNames_filterMap w list
  · intro e he
    rw [apply_servicesRules] at he
    exact (mem_filterMap_resolve w _ e he).2
  · rw [hres]
    rfl
  · rw [hres]
    rfl

/-- C2: after `initBlockedServices` ran on the static table, `BlockedSvcKnown s`
is true exactly when `s` is, character for character, the name of an entry of
`serviceRulesArray`: true for facebook and tiktok, false for Facebook, bogus
and the empty string. -/
theorem blockedSvcKnown_iff_static_name {Rule : Type}
    (N : String → Except String Rule) (w : World Rule) :
    (∀ s : String, BlockedSvcKnown (afterInit N w) s = true ↔
        ∃ e ∈ serviceRulesArray, e.name = s) ∧
      BlockedSvcKnown (afterInit N w) "facebook" = true ∧
      BlockedSvcKnown (afterInit N w) "tiktok" = true ∧
      BlockedSvcKnown (afterInit N w) "Facebook" = false ∧
      BlockedSvcKnown (afterInit N w) "bogus" = false ∧
      BlockedSvcKnown (afterInit N w) "" = false := by
  have key : ∀ s : String, BlockedSvcKnown (afterInit N w) s = true ↔
      s ∈ serviceRulesArray.map svc.name := fun s =>
    init_mapIndex_known N serviceRulesArray w s
  have neg : ∀ s : String, s ∉ serviceRulesArray.map svc.name →
      BlockedSvcKnown (afterInit N w) s = false := by
    intro s hs
    cases hb : BlockedSvcKnown (afterInit N w) s with
    | false => rfl
    | true => exact absurd ((key s).mp hb) hs
  refine ⟨?_, (key _).mpr (by decide), (key _).mpr (by decide),
    neg _ (by decide), neg _ (by decide), neg _ (by decide)⟩
  intro s
  rw [key, List.mem_map]

/-- C3: whatever the settings object, the explicit list, the flag and the
configured global list, every entry of `setts.ServicesRules` after
`ApplyBlockedServices` has a `Name` that is a key of the catalog. -/
theorem apply_entries_are_known {Rule Other : Type} (w : World Rule)
    (setts : RequestFilteringSettings Rule Other) (list : List String) (global : Bool)
    (e : ServiceEntry Rule)
    (he : e ∈ (ApplyBlockedServices w setts list global).2.ServicesRules) :
    BlockedSvcKnown (ApplyBlockedServices w setts list global).1 e.Name = true ∧
      BlockedSvcKnown w e.Name = true := by
  rw [apply_servicesRules] at he
  have hm := (mem_filterMap_resolve w _ e he).2
  have hw : (ApplyBlockedServices w setts list global).1.mapIndex e.Name = w.mapIndex e.Name := by
    simp [World.mapIndex, (apply_world w setts list global).1]
  simp [BlockedSvcKnown, hw, hm]

/-- Witness of C3: on the catalog built from the static table the list
bogus, twitter resolves to the entry twitter, whose name is known. -/
theorem apply_entries_are_known_witness :
    ({ Name := "twitter", Rules := ["||twitter.com^", "||t.co^", "||twimg.com^"] } :
        ServiceEntry String) ∈
        (ApplyBlockedServices sampleWorld sampleSetts ["bogus", "twitter"] false).2.ServicesRules ∧
      BlockedSvcKnown
        (ApplyBlockedServices sampleWorld sampleSetts ["bogus", "twitter"] false).1 "twitter"
          = true ∧
      BlockedSvcKnown sampleWorld "twitter" = true :=
  ⟨by decide,
    apply_entries_are_known sampleWorld sampleSetts ["bogus", "twitter"] false
      { Name := "twitter", Rules := ["||twitter.com^", "||t.co^", "||twimg.com^"] } (by decide)⟩

/-! ## The global list -/

theorem resolveName_congr {Rule : Type} (w₁ w₂ : World Rule)
    (h : w₁.serviceRules = w₂.serviceRules) : resolveName w₁ = resolveName w₂ := by
  funext name
  simp [resolveName, World.mapIndex, h]

theorem blockedSvcKnown_congr {Rule : Type} (w₁ w₂ : World Rule)
    (h : w₁.serviceRules = w₂.serviceRules) : BlockedSvcKnown w₁ = BlockedSvcKnown w₂ := by
  funext name
  simp [BlockedSvcKnown, World.mapIndex, h]

theorem apply_names {Rule Other : Type} (w : World Rule)
    (setts : RequestFilteringSettings Rule Other) (list : List String) (global : Bool) :
    entryNames (ApplyBlockedServices w setts list global).2.ServicesRules =
      (effectiveList w list global).filter (BlockedSvcKnown w) := by
  rw [apply_servicesRules]
  exact entryNames_filterMap w _

theorem known_afterInit {Rule : Type} (N : String → Except String Rule) (w : World Rule) :
    BlockedSvcKnown (afterInit N w) = fun s => decide (s ∈ serviceRulesArray.map svc.name) := by
  funext s
  have key := init_mapIndex_known N serviceRulesArray w s
  by_cases h : s ∈ serviceRulesArray.map svc.name
  · simpa [h] using key.mpr h
  · cases hb : BlockedSvcKnown (afterInit N w) s with
    | false => simp [h]
    | true => exact absurd (key.mp hb) h

theorem set_world_of_decoded {Rule : Type} (jsonDecode : String → Except String (List String))
    (w : World Rule) (body : String) (resp : Response) (list : List String)
    (hdec : jsonDecode body = .ok list) :
    (handleBlockedServicesSet jsonDecode w body resp).1.serviceRules = w.serviceRules ∧
      (handleBlockedServicesSet jsonDecode w body resp).1.d.Config.BlockedServices = list ∧
      (handleBlockedServicesSet jsonDecode w body resp).2 = resp := by
  simp [handleBlockedServicesSet, hdec, World.setBlockedServices]

/-- C4: with `global = true` the explicit list is ignored and the configured
list is resolved: for every explicit list `X` and configured list `G` the
result is the one of resolving `G` explicitly. On the catalog of the static
table, the configured list youtube gives the single entry youtube, and once
`handleBlockedServicesSet` has stored twitch, discord the names are twitch,
discord in that order. -/
theorem apply_global_resolves_configured_list {Rule Other : Type}
    (N : String → Except String Rule) (w : World Rule)
    (setts : RequestFilteringSettings Rule Other) (X G G' : List String)
    (jsonDecode : String → Except String (List String)) (body : String) (resp : Response)
    (hdec : jsonDecode body = .ok ["twitch", "discord"]) :
    (ApplyBlockedServices (w.setBlockedServices G) setts X true).2.ServicesRules =
        (ApplyBlockedServices (w.setBlockedServices G') setts G false).2.ServicesRules ∧
      entryNames (ApplyBlockedServices ((afterInit N w).setBlockedServices ["youtube"])
          setts X true).2.ServicesRules = ["youtube"] ∧
      (ApplyBlockedServices ((afterInit N w).setBlockedServices ["youtube"])
          setts X true).2.ServicesRules.length = 1 ∧
      entryNames (ApplyBlockedServices
          (handleBlockedServicesSet jsonDecode
            ((afterInit N w).setBlockedServices ["youtube"]) body resp).1
          setts X true).2.ServicesRules = ["twitch", "discord"] := by
  have hyt : entryNames (ApplyBlockedServices ((afterInit N w).setBlockedServices ["youtube"])
      setts X true).2.ServicesRules = ["youtube"] := by
    rw [apply_names, blockedSvcKnown_congr ((afterInit N w).setBlockedServices ["youtube"])
      (afterInit N w) rfl, known_afterInit]
    have hl : effectiveList ((afterInit N w).setBlockedServices ["youtube"]) X true
        = ["youtube"] := rfl
    rw [hl]
    decide
  refine ⟨?_, hyt, ?_, ?_⟩
  · rw [apply_servicesRules, apply_servicesRules,
      resolveName_congr (w.setBlockedServices G) (w.setBlockedServices G') rfl]
    rfl
  · have := congrArg List.length hyt
    simpa [entryNames] using this
  · have hset := set_world_of_decoded jsonDecode
      ((afterInit N w).setBlockedServices ["youtube"]) body resp _ hdec
    rw [apply_names, blockedSvcKnown_congr _ (afterInit N w) hset.1, known_afterInit]
    have hl : effectiveList (handleBlockedServicesSet jsonDecode
        ((afterInit N w).setBlockedServices ["youtube"]) body resp).1 X true
          = ["twitch", "discord"] := by
      simp only [effectiveList, hset.2.1, if_true]
    rw [hl]
    decide

/-- Witness of C4: a decoder that yields twitch, discord for every body. -/
theorem apply_global_resolves_configured_list_witness :
    (ApplyBlockedServices (sampleWorld.setBlockedServices ["bogus", "ok"]) sampleSetts
          ["vk"] true).2.ServicesRules =
        (ApplyBlockedServices (sampleWorld.setBlockedServices []) sampleSetts
          ["bogus", "ok"] false).2.ServicesRules ∧
      entryNames (ApplyBlockedServices
          ((afterInit sampleCompile sampleWorld).setBlockedServices ["youtube"])
          sampleSetts ["vk"] true).2.ServicesRules = ["youtube"] ∧
      (ApplyBlockedServices ((afterInit sampleCompile sampleWorld).setBlockedServices ["youtube"])
          sampleSetts ["vk"] true).2.ServicesRules.length = 1 ∧
      entryNames (ApplyBlockedServices
          (handleBlockedServicesSet (fun _ => .ok ["twitch", "discord"])
            ((afterInit sampleCompile sampleWorld).setBlockedServices ["youtube"])
            "[\"twitch\",\"discord\"]" Response.fresh).1
          sampleSetts ["vk"] true).2.ServicesRules = ["twitch", "discord"] :=
  apply_global_resolves_configured_list sampleCompile sampleWorld sampleSetts
    ["vk"] ["bogus", "ok"] [] (fun _ => .ok ["twitch", "discord"])
    "[\"twitch\",\"discord\"]" Response.fresh rfl

/-- C5: `ApplyBlockedServices` replaces the `ServicesRules` the settings
object held: two settings objects that differ only in their prior
`ServicesRules` give the same result, and with an empty list or a list of
unknown names only (explicit or configured) the result is empty. -/
theorem apply_replaces_prior_rules {Rule Other : Type} (w : World Rule)
    (setts : RequestFilteringSettings Rule Other) (prior : List (ServiceEntry Rule))
    (list unknown : List String) (global : Bool)
    (hunk : ∀ n ∈ unknown, BlockedSvcKnown w n = false) :
    ApplyBlockedServices w { setts with ServicesRules := prior } list global =
        ApplyBlockedServices w setts list global ∧
      (ApplyBlockedServices w { setts with ServicesRules := prior } [] false).2.ServicesRules
        = [] ∧
      (ApplyBlockedServices w { setts with ServicesRules := prior } unknown false).2.ServicesRules
        = [] ∧
      (ApplyBlockedServices (w.setBlockedServices unknown) { setts with ServicesRules := prior }
        list true).2.ServicesRules = [] := by
  have hnone : unknown.filterMap (resolveName w) = [] := by
    rw [List.filterMap_eq_nil_iff]
    intro n hn
    have := hunk n hn
    cases hm : w.mapIndex n with
    | none => simp [resolveName, hm]
    | some rules => simp [BlockedSvcKnown, hm] at this
  refine ⟨rfl, ?_, ?_, ?_⟩
  · rw [apply_servicesRules]
    rfl
  · rw [apply_servicesRules]
    exact hnone
  · rw [apply_servicesRules, resolveName_congr (w.setBlockedServices unknown) w rfl]
    exact hnone

/-- Witness of C5: a settings object with a stale entry, and the unknown
names bogus and Facebook. -/
theorem apply_replaces_prior_rules_witness :
    (∀ n ∈ ["bogus", "Facebook"], BlockedSvcKnown sampleWorld n = false) ∧
      (ApplyBlockedServices sampleWorld { sampleSetts with ServicesRules := [] } ["ok"] false =
          ApplyBlockedServices sampleWorld sampleSetts ["ok"] false ∧
        (ApplyBlockedServices sampleWorld { sampleSetts with ServicesRules := [] } []
          false).2.ServicesRules = [] ∧
        (ApplyBlockedServices sampleWorld { sampleSetts with ServicesRules := [] }
          ["bogus", "Facebook"] false).2.ServicesRules = [] ∧
        (ApplyBlockedServices (sampleWorld.setBlockedServices ["bogus", "Facebook"])
          { sampleSetts with ServicesRules := [] } ["ok"] true).2.ServicesRules = []) :=
  ⟨by decide,
    apply_replaces_prior_rules sampleWorld sampleSetts [] ["ok"] ["bogus", "Facebook"] false
      (by decide)⟩

/-! ## What the catalog holds -/

theorem mem_compiledOf {Rule : Type} (N : String → Except String Rule)
    (patterns : List String) (rule : Rule) :
    rule ∈ compiledOf N patterns ↔ ∃ text ∈ patterns, N text = .ok rule := by
  simp only [compiledOf, List.mem_filterMap]
  constructor
  · rintro ⟨text, hin, h⟩
    refine ⟨text, hin, ?_⟩
    cases hN : N text with
    | error err => simp [hN, Except.toOption] at h
    | ok r =>
        simp only [hN, Except.toOption, Option.some.injEq] at h
        rw [h]
  · rintro ⟨text, hin, h⟩
    exact ⟨text, hin, by simp [h, Except.toOption]⟩

theorem compiledOf_of_all_fail {Rule : Type} (N : String → Except String Rule)
    (patterns : List String) (h : ∀ text ∈ patterns, ∃ err, N text = .error err) :
    compiledOf N patterns = [] := by
  simp only [compiledOf, List.filterMap_eq_nil_iff]
  intro text hin
  obtain ⟨err, he⟩ := h text hin
  simp [he, Except.toOption]

theorem length_filterMap_eq {α β : Type} (f : α → Option β) (l : List α) :
    (l.filterMap f).length = (l.filter (fun a => (f a).isSome)).length := by
  induction l with
  | nil => rfl
  | cons a rest ih =>
      cases h : f a with
      | none => simp [List.filterMap_cons, h, ih]
      | some b => simp [List.filterMap_cons, h, ih]

theorem compiledOf_length {Rule : Type} (N : String → Except String Rule)
    (patterns : List String) :
    (compiledOf N patterns).length =
      (patterns.filter (fun text => (N text).toOption.isSome)).length :=
  length_filterMap_eq (fun text => (N text).toOption) patterns

theorem init_catalogKeys {Rule : Type} (N : String → Except String Rule)
    (table : List svc) (w : World Rule) (hnd : (table.map svc.name).Nodup) :
    (initBlockedServices N table w).catalogKeys = table.map svc.name := by
  simp only [initBlockedServices, World.catalogKeys]
  rw [init_fold_keys N table _ hnd (by simp [GoMap.keys])]
  simp [GoMap.keys]

/-- C6: for a table with pairwise distinct names and any rule compiler, the
catalog built by `initBlockedServices` holds under the name of each service
exactly the rules of its patterns that compiled, in pattern order: a rule is
registered for the service if and only if one of its own patterns compiles to
it, whatever fails elsewhere. -/
theorem init_registers_compiled_patterns {Rule : Type} (N : String → Except String Rule)
    (table : List svc) (w : World Rule) (s : svc)
    (hnd : (table.map svc.name).Nodup) (hs : s ∈ table) :
    (initBlockedServices N table w).mapIndex s.name =
        some (s.rules.filterMap (fun text => (N text).toOption)) ∧
      ∃ netRules, (initBlockedServices N table w).mapIndex s.name = some netRules ∧
        (∀ rule, rule ∈ netRules ↔ ∃ text ∈ s.rules, N text = .ok rule) ∧
        netRules.length = (s.rules.filter (fun text => (N text).toOption.isSome)).length := by
  have h := init_mapIndex_of_mem N table w s hnd hs
  refine ⟨h, compiledOf N s.rules, h, fun rule => mem_compiledOf N s.rules rule, ?_⟩
  exact compiledOf_length N s.rules

/-- Witness of C6: the static table with a compiler that rejects one pattern
of facebook; the six other patterns of facebook stay, in order. -/
theorem init_registers_compiled_patterns_witness :
    (serviceRulesArray.map svc.name).Nodup ∧
      (⟨"facebook", ["||facebook.com^", "||facebook.net^", "||fbcdn.net^", "||fb.me^",
        "||fb.com^", "||fbsbx.com^", "||messenger.com^"]⟩ : svc) ∈ serviceRulesArray ∧
      (initBlockedServices sampleCompile serviceRulesArray startWorld).mapIndex "facebook" =
        some ["||facebook.com^", "||facebook.net^", "||fbcdn.net^",
          "||fb.com^", "||fbsbx.com^", "||messenger.com^"] :=
  ⟨by decide, by decide,
    (init_registers_compiled_patterns sampleCompile serviceRulesArray startWorld
      ⟨"facebook", ["||facebook.com^", "||facebook.net^", "||fbcdn.net^", "||fb.me^",
        "||fb.com^", "||fbsbx.com^", "||messenger.com^"]⟩ (by decide) (by decide)).1⟩

/-- C7: for every service of the static table all of whose patterns fail to
compile, the catalog still has an entry under the name of the service, its
rule sequence is empty, and `BlockedSvcKnown` of the name is true. -/
theorem all_patterns_failing_still_known {Rule : Type} (N : String → Except String Rule)
    (w : World Rule) (s : svc) (hs : s ∈ serviceRulesArray)
    (hfail : ∀ text ∈ s.rules, ∃ err, N text = .error err) :
    s.name ∈ (afterInit N w).catalogKeys ∧
      (afterInit N w).mapIndex s.name = some [] ∧
      BlockedSvcKnown (afterInit N w) s.name = true := by
  have h := init_mapIndex_of_mem N serviceRulesArray w s serviceRulesArray_names_nodup hs
  rw [compiledOf_of_all_fail N s.rules hfail] at h
  refine ⟨?_, h, ?_⟩
  · simp only [afterInit]
    rw [init_catalogKeys N serviceRulesArray w serviceRulesArray_names_nodup]
    exact List.mem_map_of_mem svc.name hs
  · simp only [afterInit, BlockedSvcKnown, h, Option.isSome_some]

/-- Witness of C7: with a compiler that rejects every pattern, the service
reddit is known and has no rule. -/
theorem all_patterns_failing_still_known_witness :
    "reddit" ∈ (afterInit rejectAll startWorld).catalogKeys ∧
      (afterInit rejectAll startWorld).mapIndex "reddit" = some [] ∧
      BlockedSvcKnown (afterInit rejectAll startWorld) "reddit" = true :=
  all_patterns_failing_still_known rejectAll startWorld
    ⟨"reddit", ["||reddit.com^", "||redditstatic.com^", "||redditmedia.com^", "||redd.it^"]⟩
    (by decide) (fun _ _ => ⟨"bad pattern", rfl⟩)

/-! ## Reading the global list back -/

/-- C8: round trip of the global selection. When the body of
`handleBlockedServicesSet` decodes to `L`, whatever names `L` holds, the
handler answers no error and stores `L`, and `handleBlockedServicesList` then
writes the encoding of exactly `L` (same names, same order) with the JSON
content type and without an error status. -/
theorem set_then_list_round_trip {Rule : Type}
    (jsonDecode : String → Except String (List String))
    (jsonEncode : List String → Except String String)
    (w : World Rule) (body : String) (resp resp' : Response) (L : List String) (text : String)
    (hdec : jsonDecode body = .ok L) (henc : jsonEncode L = .ok text) :
    (handleBlockedServicesSet jsonDecode w body resp).2 = resp ∧
      (handleBlockedServicesSet jsonDecode w body resp).1.d.Config.BlockedServices = L ∧
      (handleBlockedServicesList jsonEncode
          (handleBlockedServicesSet jsonDecode w body resp).1 resp').2 =
        { header := resp'.header ++ [("Content-Type", "application/json")],
          status := resp'.status,
          body := resp'.body ++ text } ∧
      (handleBlockedServicesList jsonEncode
          (handleBlockedServicesSet jsonDecode w body resp).1 resp').1.d.Config.BlockedServices
        = L := by
  have hset := set_world_of_decoded jsonDecode w body resp L hdec
  refine ⟨hset.2.2, hset.2.1, ?_, ?_⟩
  · simp only [handleBlockedServicesList, hset.2.1, henc]
  · simp only [handleBlockedServicesList, hset.2.1, henc]

/-- Witness of C8: a body that decodes to a list with a name absent from the
catalog and a repeated name. -/
theorem set_then_list_round_trip_witness :
    (handleBlockedServicesSet sampleDecode sampleWorld
          "[\"bogus\",\"facebook\",\"facebook\"]" Response.fresh).2 = Response.fresh ∧
      (handleBlockedServicesSet sampleDecode sampleWorld
          "[\"bogus\",\"facebook\",\"facebook\"]" Response.fresh).1.d.Config.BlockedServices
        = ["bogus", "facebook", "facebook"] ∧
      (handleBlockedServicesList sampleEncode
          (handleBlockedServicesSet sampleDecode sampleWorld
            "[\"bogus\",\"facebook\",\"facebook\"]" Response.fresh).1 Response.fresh).2 =
        { header := Response.fresh.header ++ [("Content-Type", "application/json")],
          status := Response.fresh.status,
          body := Response.fresh.body ++ "[\"bogus\",\"facebook\",\"facebook\"]" } ∧
      (handleBlockedServicesList sampleEncode
          (handleBlockedServicesSet sampleDecode sampleWorld
            "[\"bogus\",\"facebook\",\"facebook\"]" Response.fresh).1
          Response.fresh).1.d.Config.BlockedServices
        = ["bogus", "facebook", "facebook"] :=
  set_then_list_round_trip sampleDecode sampleEncode
    sampleWorld "[\"bogus\",\"facebook\",\"facebook\"]" Response.fresh Response.fresh
    ["bogus", "facebook", "facebook"] "[\"bogus\",\"facebook\",\"facebook\"]"
    (by simp [sampleDecode]) (congrArg Except.ok (by decide))

/-! ## The static table -/

/-- C9: the names of `serviceRulesArray` are pairwise distinct, so building
the catalog loses no service: the keys of the catalog are the names of the
table, one key per entry, and the rules under the name of each entry are the
compiled patterns of that entry alone. -/
theorem static_names_distinct_catalog_complete {Rule : Type}
    (N : String → Except String Rule) (w : World Rule) :
    (serviceRulesArray.map svc.name).Pairwise (fun a b => a ≠ b) ∧
      ((afterInit N w).catalogKeys).Perm (serviceRulesArray.map svc.name) ∧
      (afterInit N w).catalogKeys.length = serviceRulesArray.length ∧
      (afterInit N w).catalogKeys.Nodup ∧
      (∀ s ∈ serviceRulesArray, (afterInit N w).mapIndex s.name =
        some (s.rules.filterMap (fun text => (N text).toOption))) := by
  have hk := init_catalogKeys N serviceRulesArray w serviceRulesArray_names_nodup
  refine ⟨serviceRulesArray_names_nodup, ?_, ?_, ?_, ?_⟩
  · simp only [afterInit, hk]
    exact List.Perm.refl _
  · simp only [afterInit, hk, List.length_map]
  · simp only [afterInit, hk]
    exact serviceRulesArray_names_nodup
  · intro s hs
    exact init_mapIndex_of_mem N serviceRulesArray w s serviceRulesArray_names_nodup hs

/-! ## Resolving twice -/

theorem apply_snd {Rule Other : Type} (w : World Rule)
    (setts : RequestFilteringSettings Rule Other) (list : List String) (global : Bool) :
    (ApplyBlockedServices w setts list global).2 =
      { setts with
        ServicesRules := (effectiveList w list global).filterMap (resolveName w) } := by
  simp [ApplyBlockedServices, effectiveList, apply_fold_fst]

/-- C10: calling `ApplyBlockedServices` a second time with the same list, flag,
configured list and catalog yields the same settings object, hence equal
`ServicesRules`, both on the settings object the first call filled and on the
original one. -/
theorem apply_twice_same_rules {Rule Other : Type} (w : World Rule)
    (setts : RequestFilteringSettings Rule Other) (list : List String) (global : Bool) :
    (ApplyBlockedServices (ApplyBlockedServices w setts list global).1
          (ApplyBlockedServices w setts list global).2 list global).2.ServicesRules =
        (ApplyBlockedServices w setts list global).2.ServicesRules ∧
      (ApplyBlockedServices (ApplyBlockedServices w setts list global).1
          setts list global).2.ServicesRules =
        (ApplyBlockedServices w setts list global).2.ServicesRules ∧
      (ApplyBlockedServices (ApplyBlockedServices w setts list global).1
          (ApplyBlockedServices w setts list global).2 list global).2 =
        (ApplyBlockedServices w setts list global).2 := by
  have hw := apply_world w setts list global
  have hr : resolveName (ApplyBlockedServices w setts list global).1 = resolveName w :=
    resolveName_congr _ _ hw.1
  have hl : effectiveList (ApplyBlockedServices w setts list global).1 list global =
      effectiveList w list global := by
    simp only [effectiveList, hw.2]
  refine ⟨?_, ?_, ?_⟩
  · rw [apply_servicesRules, apply_servicesRules, hr, hl]
  · rw [apply_servicesRules, apply_servicesRules, hr, hl]
  · rw [apply_snd, apply_snd, hr, hl]

/-! ## The events of a resolution -/

theorem callEvents_append (before evs : List Event) :
    callEvents before (before ++ evs) = evs := by
  simp [callEvents]

theorem apply_fold_snd {Rule : Type} (w : World Rule) (list : List String)
    (acc : List (ServiceEntry Rule) × List Event) :
    (list.foldl (applyStep w) acc).2 = acc.2 ++ loopEvents w list := by
  induction list generalizing acc with
  | nil => simp [loopEvents]
  | cons name rest ih =>
      rw [List.foldl_cons, ih]
      cases h : w.mapIndex name with
      | none => simp [applyStep, loopEvents, BlockedSvcKnown, h]
      | some rules => simp [applyStep, loopEvents, BlockedSvcKnown, h]

theorem apply_trace_global {Rule Other : Type} (w : World Rule)
    (setts : RequestFilteringSettings Rule Other) (list : List String) :
    (ApplyBlockedServices w setts list true).1.trace =
      w.trace ++ (Event.RLock :: (loopEvents w w.d.Config.BlockedServices ++ [Event.RUnlock])) := by
  simp [ApplyBlockedServices, apply_fold_snd]

theorem apply_trace_explicit {Rule Other : Type} (w : World Rule)
    (setts : RequestFilteringSettings Rule Other) (list : List String) :
    (ApplyBlockedServices w setts list false).1.trace = w.trace ++ loopEvents w list := by
  simp [ApplyBlockedServices, apply_fold_snd]

theorem underRLock_loopEvents_held {Rule : Type} (w : World Rule) (list : List String)
    (rest : List Event) :
    underRLock true (loopEvents w list ++ rest) = loopEvents w list ++ underRLock true rest := by
  induction list with
  | nil => simp [loopEvents]
  | cons name tl ih =>
      cases h : BlockedSvcKnown w name with
      | true => simp [loopEvents, h, underRLock, ih]
      | false => simp [loopEvents, h, underRLock, ih]

theorem underRLock_loopEvents_free {Rule : Type} (w : World Rule) (list : List String) :
    underRLock false (loopEvents w list) = [] := by
  induction list with
  | nil => simp [loopEvents, underRLock]
  | cons name tl ih =>
      cases h : BlockedSvcKnown w name with
      | true => simp [loopEvents, h, underRLock, ih]
      | false => simp [loopEvents, h, underRLock, ih]

theorem diagnostics_append (a b : List Event) :
    diagnostics (a ++ b) = diagnostics a ++ diagnostics b := by
  induction a with
  | nil => simp [diagnostics]
  | cons e tl ih =>
      cases e <;> simp [diagnostics, ih]

theorem diagnostics_loopEvents {Rule : Type} (w : World Rule) (list : List String) :
    diagnostics (loopEvents w list) =
      (list.filter (fun name => !BlockedSvcKnown w name)).map
        (fun name => "unknown service name: " ++ name) := by
  induction list with
  | nil => simp [loopEvents, diagnostics]
  | cons name tl ih =>
      cases h : BlockedSvcKnown w name with
      | true => simp [loopEvents, h, diagnostics, ih]
      | false => simp [loopEvents, h, diagnostics, ih]

theorem apply_callEvents {Rule Other : Type} (w : World Rule)
    (setts : RequestFilteringSettings Rule Other) (list : List String) (global : Bool) :
    callEvents w.trace (ApplyBlockedServices w setts list global).1.trace =
      if global then Event.RLock :: (loopEvents w w.d.Config.BlockedServices ++ [Event.RUnlock])
      else loopEvents w list := by
  cases global with
  | true => rw [apply_trace_global, callEvents_append]; rfl
  | false => rw [apply_trace_explicit, callEvents_append]; rfl

theorem apply_diagnostics {Rule Other : Type} (w : World Rule)
    (setts : RequestFilteringSettings Rule Other) (list : List String) (global : Bool) :
    diagnostics (callEvents w.trace (ApplyBlockedServices w setts list global).1.trace) =
      ((effectiveList w list global).filter (fun name => !BlockedSvcKnown w name)).map
        (fun name => "unknown service name: " ++ name) := by
  rw [apply_callEvents]
  cases global with
  | true =>
      simp only [if_true, effectiveList]
      rw [show Event.RLock :: (loopEvents w w.d.Config.BlockedServices ++ [Event.RUnlock]) =
        [Event.RLock] ++ (loopEvents w w.d.Config.BlockedServices ++ [Event.RUnlock]) from rfl,
        diagnostics_append, diagnostics_append, diagnostics_loopEvents]
      simp [diagnostics]
  | false =>
      simp only [effectiveList, Bool.false_eq_true, if_false]
      exact diagnostics_loopEvents w list

/-- Counterexample of C11: with the configured list bogus, youtube and
`global = true`, the two map reads and the diagnostic for bogus all happen
while the read lock is held, so the events under the lock are not empty. -/
theorem apply_global_lookups_under_rlock_counterexample :
    underRLock false (callEvents (sampleWorld.setBlockedServices ["bogus", "youtube"]).trace
        (ApplyBlockedServices (sampleWorld.setBlockedServices ["bogus", "youtube"])
          sampleSetts [] true).1.trace) =
      [Event.mapRead "bogus", Event.logError "unknown service name: bogus",
        Event.mapRead "youtube"] ∧
    ¬ underRLock false (callEvents (sampleWorld.setBlockedServices ["bogus", "youtube"]).trace
        (ApplyBlockedServices (sampleWorld.setBlockedServices ["bogus", "youtube"])
          sampleSetts [] true).1.trace) = [] := by
  decide

/-- C11, amended: with `global = true` the call takes the read lock, reads the
configured list and releases the lock only on return: its events are `RLock`,
then the map reads and diagnostics of the loop over the configured list, then
`RUnlock`, so every map read and diagnostic of the call happens while the read
lock is held; the result is the resolution of the configured list. With
`global = false` the call takes no lock. -/
theorem apply_global_rlock_spans_the_loop {Rule Other : Type} (w : World Rule)
    (setts : RequestFilteringSettings Rule Other) (list : List String) :
    callEvents w.trace (ApplyBlockedServices w setts list true).1.trace =
        Event.RLock :: (loopEvents w w.d.Config.BlockedServices ++ [Event.RUnlock]) ∧
      underRLock false (callEvents w.trace (ApplyBlockedServices w setts list true).1.trace) =
        loopEvents w w.d.Config.BlockedServices ∧
      (ApplyBlockedServices w setts list true).2.ServicesRules =
        w.d.Config.BlockedServices.filterMap (resolveName w) ∧
      callEvents w.trace (ApplyBlockedServices w setts list false).1.trace =
        loopEvents w list ∧
      underRLock false (callEvents w.trace (ApplyBlockedServices w setts list false).1.trace)
        = [] := by
  refine ⟨?_, ?_, ?_, ?_, ?_⟩
  · rw [apply_callEvents]
    rfl
  · rw [apply_callEvents]
    simp only [if_true, underRLock]
    rw [underRLock_loopEvents_held]
    simp [underRLock]
  · rw [apply_servicesRules]
    rfl
  · rw [apply_callEvents]
    rfl
  · rw [apply_callEvents]
    exact underRLock_loopEvents_free w list

/-- C13: `ApplyBlockedServices` accounts for every name of the list it
resolves exactly once: the known names give the result entries, in order, the
unknown names give the diagnostics, one `unknown service name` message with
the name each, in order, and the number of entries plus the number of
diagnostics is the length of the list. The call always returns. -/
theorem apply_accounts_for_every_name {Rule Other : Type} (w : World Rule)
    (setts : RequestFilteringSettings Rule Other) (list : List String) (global : Bool) :
    entryNames (ApplyBlockedServices w setts list global).2.ServicesRules =
        (effectiveList w list global).filter (BlockedSvcKnown w) ∧
      diagnostics (callEvents w.trace (ApplyBlockedServices w setts list global).1.trace) =
        ((effectiveList w list global).filter (fun name => !BlockedSvcKnown w name)).map
          (fun name => "unknown service name: " ++ name) ∧
      (ApplyBlockedServices w setts list global).2.ServicesRules.length +
          (diagnostics
            (callEvents w.trace (ApplyBlockedServices w setts list global).1.trace)).length =
        (effectiveList w list global).length := by
  have hn := apply_names w setts list global
  have hd := apply_diagnostics w setts list global
  refine ⟨hn, hd, ?_⟩
  have hlen : (ApplyBlockedServices w setts list global).2.ServicesRules.length =
      ((effectiveList w list global).filter (BlockedSvcKnown w)).length := by
    rw [← hn]
    simp [entryNames]
  rw [hlen, hd, List.length_map]
  induction effectiveList w list global with
  | nil => rfl
  | cons name tl ih =>
      cases h : BlockedSvcKnown w name with
      | true =>
          simp only [List.filter_cons, h, if_true, Bool.not_true, Bool.false_eq_true, if_false,
            List.length_cons]
          omega
      | false =>
          simp only [List.filter_cons, h, if_true, Bool.not_false, Bool.false_eq_true, if_false,
            List.length_cons]
          omega

/-! ## Building the catalog again -/

theorem initStep_eq {Rule : Type} (N : String → Except String Rule)
    (acc : GoMap (List Rule) × List Event) (s : svc) :
    initStep N acc s = (acc.1.set s.name (compiledOf N s.rules), (initStep N acc s).2) :=
  Prod.ext (initStep_fst N acc s) rfl

theorem init_fold_fst_of_trace {Rule : Type} (N : String → Except String Rule)
    (table : List svc) (m : GoMap (List Rule)) (tr₁ tr₂ : List Event) :
    (table.foldl (initStep N) (m, tr₁)).1 = (table.foldl (initStep N) (m, tr₂)).1 := by
  induction table generalizing m tr₁ tr₂ with
  | nil => rfl
  | cons s rest ih =>
      rw [List.foldl_cons, List.foldl_cons, initStep_eq N (m, tr₁) s, initStep_eq N (m, tr₂) s]
      exact ih _ _ _

theorem init_serviceRules_of_world {Rule : Type} (N : String → Except String Rule)
    (table : List svc) (w₁ w₂ : World Rule) :
    (initBlockedServices N table w₁).serviceRules =
      (initBlockedServices N table w₂).serviceRules := by
  simp only [initBlockedServices]
  rw [init_fold_fst_of_trace N table [] w₁.trace w₂.trace]

/-- C14: building the catalog is idempotent. For any table and any rule
compiler, running `initBlockedServices` a second time leaves the same catalog
as the first run: the same keys and the same rule sequence under every key;
each service of the static table still holds its compiled patterns once. -/
theorem init_twice_same_catalog {Rule : Type} (N : String → Except String Rule)
    (table : List svc) (w : World Rule) :
    (initBlockedServices N table (initBlockedServices N table w)).serviceRules =
        (initBlockedServices N table w).serviceRules ∧
      (initBlockedServices N table (initBlockedServices N table w)).catalogKeys =
        (initBlockedServices N table w).catalogKeys ∧
      (∀ name : String,
        (initBlockedServices N table (initBlockedServices N table w)).mapIndex name =
          (initBlockedServices N table w).mapIndex name) ∧
      (∀ s ∈ serviceRulesArray, (afterInit N (afterInit N w)).mapIndex s.name =
        some (s.rules.filterMap (fun text => (N text).toOption))) := by
  have h := init_serviceRules_of_world N table (initBlockedServices N table w) w
  refine ⟨h, ?_, ?_, ?_⟩
  · simp only [World.catalogKeys, h]
  · intro name
    simp only [World.mapIndex, h]
  · intro s hs
    exact init_mapIndex_of_mem N serviceRulesArray _ s serviceRulesArray_names_nodup hs

/-! ## What a resolution leaves alone -/

/-- C15: `ApplyBlockedServices` changes, of the state, only the `ServicesRules`
of the settings object: the catalog (its keys and the rules under every key)
and the configured global list are after the call what they were before, the
other fields of the settings object are kept, and the trace is only extended.
`BlockedSvcKnown` only reads the catalog and answers the same after the call
as before it. -/
theorem apply_changes_only_services_rules {Rule Other : Type} (w : World Rule)
    (setts : RequestFilteringSettings Rule Other) (list : List String) (global : Bool) :
    (ApplyBlockedServices w setts list global).1.serviceRules = w.serviceRules ∧
      (ApplyBlockedServices w setts list global).1.catalogKeys = w.catalogKeys ∧
      (∀ name : String,
        (ApplyBlockedServices w setts list global).1.mapIndex name = w.mapIndex name) ∧
      (ApplyBlockedServices w setts list global).1.d.Config.BlockedServices =
        w.d.Config.BlockedServices ∧
      (ApplyBlockedServices w setts list global).1.d = w.d ∧
      (ApplyBlockedServices w setts list global).2.other = setts.other ∧
      w.trace <+: (ApplyBlockedServices w setts list global).1.trace ∧
      BlockedSvcKnown (ApplyBlockedServices w setts list global).1 = BlockedSvcKnown w := by
  have hw := apply_world w setts list global
  refine ⟨hw.1, ?_, ?_, ?_, hw.2, rfl, ?_, blockedSvcKnown_congr _ _ hw.1⟩
  · simp only [World.catalogKeys, hw.1]
  · intro name
    simp only [World.mapIndex, hw.1]
  · rw [hw.2]
  · cases global with
    | true =>
        rw [apply_trace_global]
        exact List.prefix_append _ _
    | false =>
        rw [apply_trace_explicit]
        exact List.prefix_append _ _

/-! ## A body that does not decode -/

theorem set_of_decode_error {Rule : Type} (jsonDecode : String → Except String (List String))
    (w : World Rule) (body : String) (resp : Response) (err : String)
    (hdec : jsonDecode body = .error err) :
    handleBlockedServicesSet jsonDecode w body resp =
      (w, httpError resp 400 ("json.Decode: " ++ err)) := by
  simp [handleBlockedServicesSet, hdec]

theorem set_trace_of_decoded {Rule : Type} (jsonDecode : String → Except String (List String))
    (w : World Rule) (body : String) (resp : Response) (list : List String)
    (hdec : jsonDecode body = .ok list) :
    (handleBlockedServicesSet jsonDecode w body resp).1.trace =
      w.trace ++ [Event.Lock, Event.Unlock,
        Event.logDebug ("Updated blocked services list: " ++ toString list.length),
        Event.ConfigModified] := by
  simp [handleBlockedServicesSet, hdec]

/-- C16: the set operation is atomic on failure. When the body does not decode
(`bad`), `handleBlockedServicesSet` answers with status 400, leaves the state
as it was (the configured list, no lock taken, nothing logged) and does not
call `ConfigModified`; when it decodes (`good`), the configured list is
replaced under the write lock and `ConfigModified` is called. The
configuration is marked modified only for a body that decodes. -/
theorem set_atomic_on_decode_failure {Rule : Type}
    (jsonDecode : String → Except String (List String)) (w : World Rule)
    (bad good : String) (resp : Response) (err : String) (L : List String)
    (hbad : jsonDecode bad = .error err) (hgood : jsonDecode good = .ok L) :
    (handleBlockedServicesSet jsonDecode w bad resp).1 = w ∧
      (handleBlockedServicesSet jsonDecode w bad resp).1.d.Config.BlockedServices =
        w.d.Config.BlockedServices ∧
      (handleBlockedServicesSet jsonDecode w bad resp).2.status = 400 ∧
      (handleBlockedServicesSet jsonDecode w bad resp).2 =
        httpError resp 400 ("json.Decode: " ++ err) ∧
      callEvents w.trace (handleBlockedServicesSet jsonDecode w bad resp).1.trace = [] ∧
      (handleBlockedServicesSet jsonDecode w good resp).1.d.Config.BlockedServices = L ∧
      callEvents w.trace (handleBlockedServicesSet jsonDecode w good resp).1.trace =
        [Event.Lock, Event.Unlock,
          Event.logDebug ("Updated blocked services list: " ++ toString L.length),
          Event.ConfigModified] ∧
      (handleBlockedServicesSet jsonDecode w good resp).2 = resp ∧
      (∀ body : String,
        Event.ConfigModified ∈
            callEvents w.trace (handleBlockedServicesSet jsonDecode w body resp).1.trace →
          ∃ list, jsonDecode body = .ok list) := by
  have hb := set_of_decode_error jsonDecode w bad resp err hbad
  have hg := set_world_of_decoded jsonDecode w good resp L hgood
  refine ⟨by rw [hb], by rw [hb], by rw [hb]; rfl, by rw [hb], ?_, hg.2.1, ?_, hg.2.2, ?_⟩
  · rw [hb]
    simp [callEvents]
  · rw [set_trace_of_decoded jsonDecode w good resp L hgood, callEvents_append]
  · intro body hmem
    cases hd : jsonDecode body with
    | ok list => exact ⟨list, rfl⟩
    | error e =>
        rw [set_of_decode_error jsonDecode w body resp e hd] at hmem
        simp [callEvents] at hmem

/-- Witness of C16: a body that is a JSON array of numbers is rejected by the
sample decoder, the sample body is accepted. -/
theorem set_atomic_on_decode_failure_witness :
    sampleDecode "[1, 2]" = .error "invalid character" ∧
      (handleBlockedServicesSet sampleDecode sampleWorld "[1, 2]"
        Response.fresh).1.d.Config.BlockedServices = ["youtube"] ∧
      (handleBlockedServicesSet sampleDecode sampleWorld "[1, 2]" Response.fresh).2.status
        = 400 ∧
      (handleBlockedServicesSet sampleDecode sampleWorld
        "[\"bogus\",\"facebook\",\"facebook\"]" Response.fresh).1.d.Config.BlockedServices
        = ["bogus", "facebook", "facebook"] :=
  have h := set_atomic_on_decode_failure sampleDecode sampleWorld "[1, 2]"
    "[\"bogus\",\"facebook\",\"facebook\"]" Response.fresh "invalid character"
    ["bogus", "facebook", "facebook"] (by simp [sampleDecode]) (by simp [sampleDecode])
  ⟨by simp [sampleDecode], h.2.1, h.2.2.1, h.2.2.2.2.2.1⟩

/-! ## Before the catalog is built -/

/-- C17: while `serviceRules` is still the nil map, `BlockedSvcKnown` is false
for every string, and `ApplyBlockedServices` returns with an empty
`ServicesRules` for every list and either value of the flag, every name of
the list it resolves giving one diagnostic. -/
theorem nil_catalog_knows_nothing {Rule Other : Type} (w : World Rule)
    (setts : RequestFilteringSettings Rule Other) (list : List String) (global : Bool)
    (s : String) (hnil : w.serviceRules = none) :
    BlockedSvcKnown w s = false ∧
      (ApplyBlockedServices w setts list global).2.ServicesRules = [] ∧
      diagnostics (callEvents w.trace (ApplyBlockedServices w setts list global).1.trace) =
        (effectiveList w list global).map (fun name => "unknown service name: " ++ name) := by
  have hk : ∀ name : String, BlockedSvcKnown w name = false := by
    intro name
    simp [BlockedSvcKnown, World.mapIndex, hnil]
  have hr : ∀ name : String, resolveName w name = none := by
    intro name
    simp [resolveName, World.mapIndex, hnil]
  refine ⟨hk s, ?_, ?_⟩
  · rw [apply_servicesRules, List.filterMap_eq_nil_iff]
    intro name _
    exact hr name
  · have hd := apply_diagnostics w setts list global
    rw [hd]
    congr 1
    rw [List.filter_eq_self]
    intro name _
    simp [hk name]

/-- Witness of C17: the state at program start, before `initBlockedServices`. -/
theorem nil_catalog_knows_nothing_witness :
    startWorld.serviceRules = none ∧
      BlockedSvcKnown startWorld "facebook" = false ∧
      (ApplyBlockedServices startWorld sampleSetts ["facebook", "bogus"] true).2.ServicesRules
        = [] ∧
      diagnostics (callEvents startWorld.trace
          (ApplyBlockedServices startWorld sampleSetts ["facebook", "bogus"] true).1.trace) =
        (effectiveList startWorld ["facebook", "bogus"] true).map
          (fun name => "unknown service name: " ++ name) :=
  ⟨rfl, nil_catalog_knows_nothing startWorld sampleSetts ["facebook", "bogus"] true
    "facebook" rfl⟩

end dnsfilter
